import Mathlib

/-!
Shallow embedding of the `runr` CLI's pure core (`index.ts`) and proofs of the
spec's testable properties.  The tool's effectful helpers (subprocess calls,
file IO, prompt rendering) are modelled by their pure data transformations:
YAML parsing/serialization is out of scope of the spec and is treated as a
black-box bijection, so configuration-level operations are stated on the
parsed `RepoConfig` structure.
-/

namespace Runr

/-- A saved workflow shortcut, as stored in the config file. -/
structure Bookmark where
  nickname : String
  workflow : String
  branch : String
  inputs : List (String × String)
deriving DecidableEq

/-- One repository entry of the config file.  `bookmarks` is an optional key:
`none` models a config record without a `bookmarks:` block. -/
structure Repo where
  name : String
  branches : List String
  bookmarks : Option (List Bookmark)
deriving DecidableEq

/-- Parsed form of the whole `config.yml`. -/
structure RepoConfig where
  repos : List Repo
deriving DecidableEq

/-- One workflow summary as returned by `gh workflow list --json`. -/
structure Workflow where
  name : String
  path : String
  id : Int
  state : String
deriving DecidableEq

/-- `getRepoList`: `config.repos.map((repo) => repo.name).sort()`.  The
JavaScript default `sort` on strings is a stable sort by the string order
itself; it is embedded as the stable `mergeSort` of the string order. -/
def getRepoList (config : RepoConfig) : List String :=
  (config.repos.map (fun repo => repo.name)).mergeSort (fun a b => decide (a ≤ b))

/-- A plain JavaScript object converts to the string "[object Object]";
the default `Array.prototype.sort` comparator compares these strings. -/
def jsObjectString (_ : Workflow) : String :=
  "[object Object]"

/-- `filterActiveWorkflows`:
`workflows.filter((w) => w.state === "active").sort()`.  The comparator-less
`sort` compares the `String(·)` image of each element, which is constantly
`"[object Object]"` for these objects, under a stable sort (ES2019). -/
def filterActiveWorkflows (workflows : List Workflow) : List Workflow :=
  (workflows.filter (fun w => w.state == "active")).mergeSort
    (fun a b => decide (jsObjectString a ≤ jsObjectString b))

/-- `buildWorkflowRunArgs`: starts from the fixed argument vector and pushes a
`-f key=value` pair for every collected input, in iteration order. -/
def buildWorkflowRunArgs (workflowName : String) (repo : String) (branch : String)
    (inputGroup : List (String × String)) : List String :=
  inputGroup.foldl
    (fun workflowRunArgs kv => workflowRunArgs ++ ["-f", kv.1 ++ "=" ++ kv.2])
    ["workflow", "run", workflowName, "-R", repo, "--ref", branch]

/-- Pushing onto the accumulator in a loop produces the initial vector followed
by the concatenation of the per-entry fragments. -/
theorem foldl_push_eq_append {α β : Type} (g : β → List α) :
    ∀ (l : List β) (init : List α),
      l.foldl (fun acc kv => acc ++ g kv) init = init ++ l.flatMap g := by
  intro l
  induction l with
  | nil => intro init; simp
  | cons kv rest ih =>
      intro init
      simp [List.foldl_cons, ih (init ++ g kv), List.flatMap_cons, List.append_assoc]

/-- C1: `buildWorkflowRunArgs` returns the fixed vector
`["workflow","run",w,"-R",r,"--ref",b]` followed by a `-f key=value` pair per
input entry in iteration order; with no inputs the `-f` pairs are absent, and
the concrete `Deploy` example produces exactly the listed vector. -/
theorem buildWorkflowRunArgs_spec (w r b : String) (m : List (String × String)) :
    buildWorkflowRunArgs w r b m =
      ["workflow", "run", w, "-R", r, "--ref", b] ++
        m.flatMap (fun kv => ["-f", kv.1 ++ "=" ++ kv.2]) ∧
    buildWorkflowRunArgs w r b [] = ["workflow", "run", w, "-R", r, "--ref", b] ∧
    buildWorkflowRunArgs "Deploy" "owner/repo" "main"
        [("environment", "staging"), ("version", "2.0.0")] =
      ["workflow", "run", "Deploy", "-R", "owner/repo", "--ref", "main",
       "-f", "environment=staging", "-f", "version=2.0.0"] := by
  refine ⟨foldl_push_eq_append _ m _, foldl_push_eq_append _ [] _, ?_⟩
  decide

/-- Any list is `Pairwise` for a relation that always holds. -/
theorem pairwise_of_total {α : Type} {p : α → α → Prop} (h : ∀ a b, p a b) :
    ∀ l : List α, l.Pairwise p := by
  intro l
  induction l with
  | nil => exact List.Pairwise.nil
  | cons a rest ih => exact List.Pairwise.cons (fun b _ => h a b) ih

/-- The comparator-less sort of a list of plain objects is the identity:
every comparison key is `"[object Object]"`, and the sort is stable. -/
theorem filterActiveWorkflows_eq_filter (ws : List Workflow) :
    filterActiveWorkflows ws = ws.filter (fun w => w.state == "active") := by
  unfold filterActiveWorkflows
  exact List.mergeSort_of_sorted (pairwise_of_total (fun a b => by simp [jsObjectString]) _)

/-- C3: `filterActiveWorkflows` returns exactly the entries whose `state` is
the literal `"active"`, in their original relative order (it equals the plain
filter), and it is idempotent. -/
theorem filterActiveWorkflows_spec (ws : List Workflow) :
    filterActiveWorkflows ws = ws.filter (fun w => w.state == "active") ∧
    (∀ w ∈ filterActiveWorkflows ws, w.state = "active") ∧
    (∀ w ∈ ws, w.state = "active" → w ∈ filterActiveWorkflows ws) ∧
    filterActiveWorkflows (filterActiveWorkflows ws) = filterActiveWorkflows ws := by
  refine ⟨filterActiveWorkflows_eq_filter ws, ?_, ?_, ?_⟩
  · intro w hw
    rw [filterActiveWorkflows_eq_filter] at hw
    simpa using (List.of_mem_filter hw)
  · intro w hw hstate
    rw [filterActiveWorkflows_eq_filter]
    exact List.mem_filter.mpr ⟨hw, by simp [hstate]⟩
  · rw [filterActiveWorkflows_eq_filter ws, filterActiveWorkflows_eq_filter,
      List.filter_filter]
    simp

/-- C7: the repo-name listing is sorted ascending (case-sensitive string
order), is a permutation of the input's name multiset, and is invariant under
permutations of the repository list. -/
theorem getRepoList_spec (config : RepoConfig) :
    (getRepoList config).Sorted (· ≤ ·) ∧
    (getRepoList config).Perm (config.repos.map (fun repo => repo.name)) ∧
    ∀ config' : RepoConfig, config'.repos.Perm config.repos →
      getRepoList config' = getRepoList config := by
  have sorted : ∀ c : RepoConfig, (getRepoList c).Sorted (· ≤ ·) := by
    intro c
    have h := @List.sorted_mergeSort String
      (fun a b : String => decide (a ≤ b))
      (fun a b cc hab hbc => by
        simp only [decide_eq_true_eq] at *
        exact le_trans hab hbc)
      (fun a b => by
        rcases le_total a b with h | h <;> simp [h])
      (c.repos.map (fun repo => repo.name))
    exact List.Pairwise.imp (by simp) h
  have perm : ∀ c : RepoConfig,
      (getRepoList c).Perm (c.repos.map (fun repo => repo.name)) := by
    intro c
    exact List.mergeSort_perm _ _
  refine ⟨sorted config, perm config, ?_⟩
  intro config' hperm
  refine List.eq_of_perm_of_sorted ?_ (sorted config') (sorted config)
  exact ((perm config').trans (hperm.map _)).trans (perm config).symm

/-- A scalar YAML/JavaScript value as it may appear in an input's `default`
field, together with its `String(·)` conversion. -/
inductive JsVal where
  | str (s : String)
  | bool (b : Bool)
  | num (n : Int)
deriving DecidableEq

/-- JavaScript `String(·)` on the scalar values above. -/
def JsVal.jsString : JsVal → String
  | .str s => s
  | .bool b => if b then "true" else "false"
  | .num n => toString n

/-- Modelled from the spec: the `WorkflowDispatchInput` shape lives in
`workflow_types.ts`, which is not among the sources here.  Per §4.5 an input
declaration carries a free-form `type` string, an optional `default`, the
`options` list (meaningful only for the `choice` type), and `required`. -/
structure WorkflowDispatchInput where
  type : String
  default : Option JsVal
  options : List String
  required : Bool
deriving DecidableEq

/-- Modelled from the spec: `isChoiceInput` lives in `workflow_types.ts`,
which is not among the sources here; per §4.5 options are populated only for
the `choice` type, so the guard recognizes exactly that type tag. -/
def isChoiceInput (input : WorkflowDispatchInput) : Bool :=
  input.type == "choice"

/-- Projected input spec handed to the prompt builder. -/
structure WorkflowInput where
  name : String
  type : String
  default : String
  options : Option (List String)
  required : Bool
deriving DecidableEq

/-- Pure core of `getWorkflowInputs`: the dispatch-trigger input map (absent
maps to `{}` via `inputs ?? {}`) is projected entrywise:
`type` verbatim, `default` via `String(input.default ?? "")`, `options` only
when `isChoiceInput`, `required` verbatim. -/
def getWorkflowInputs (inputs : Option (List (String × WorkflowDispatchInput))) :
    List WorkflowInput :=
  (inputs.getD []).map (fun p =>
    { name := p.1
      type := p.2.type
      default := ((p.2.default.map JsVal.jsString).getD "")
      options := if isChoiceInput p.2 then some p.2.options else none
      required := p.2.required })

/-- C2: the projection keeps every entry (entrywise `Forall₂` with the source
map, hence equal length, nothing dropped even for unrecognized types): name
and type verbatim, `default` the string form of the declared default and `""`
when absent, `options` present exactly for the `choice` type, `required`
verbatim; the empty input map yields the empty list. -/
theorem getWorkflowInputs_spec (inputs : Option (List (String × WorkflowDispatchInput))) :
    getWorkflowInputs (some []) = [] ∧
    getWorkflowInputs none = [] ∧
    (getWorkflowInputs inputs).length = (inputs.getD []).length ∧
    List.Forall₂ (fun (p : String × WorkflowDispatchInput) (out : WorkflowInput) =>
        out.name = p.1 ∧
        out.type = p.2.type ∧
        (∀ v, p.2.default = some v → out.default = v.jsString) ∧
        (p.2.default = none → out.default = "") ∧
        (out.options.isSome ↔ p.2.type = "choice") ∧
        (p.2.type = "choice" → out.options = some p.2.options) ∧
        out.required = p.2.required)
      (inputs.getD []) (getWorkflowInputs inputs) := by
  refine ⟨rfl, rfl, by simp [getWorkflowInputs], ?_⟩
  unfold getWorkflowInputs
  rw [List.forall₂_map_right_iff]
  refine List.forall₂_same.mpr ?_
  intro p _
  refine ⟨rfl, rfl, ?_, ?_, ?_, ?_, rfl⟩
  · intro v hv; simp [hv]
  · intro hv; simp [hv]
  · by_cases h : p.2.type = "choice" <;> simp [isChoiceInput, h]
  · intro h; simp [isChoiceInput, h]

/-- JavaScript `String.prototype.padEnd`: pad with spaces on the right up to
the target length. -/
def padEnd (s : String) (targetLength : Nat) : String :=
  s ++ String.mk (List.replicate (targetLength - s.length) ' ')

/-- The lines of the confirmation summary, in order: header lines, a blank
line, the `Inputs :` header, then one padded line per collected input. -/
def displayLines (workflowName : String) (repo : String) (branch : String)
    (inputGroup : List (String × String)) : List String :=
  ["Running Workflow : " ++ workflowName,
   "Repo             : " ++ repo,
   "Branch           : " ++ branch,
   "",
   "Inputs :"] ++
  inputGroup.map (fun kv => "  " ++ padEnd kv.1 15 ++ " : " ++ kv.2)

/-- JavaScript `Array.prototype.join("\n")`. -/
def joinLines : List String → String
  | [] => ""
  | [a] => a
  | a :: b :: rest => a ++ "\n" ++ joinLines (b :: rest)

/-- `buildDisplayInfo`: the joined multi-line confirmation summary. -/
def buildDisplayInfo (workflowName : String) (repo : String) (branch : String)
    (inputGroup : List (String × String)) : String :=
  joinLines (displayLines workflowName repo branch inputGroup)

/-- A joined nonempty list of lines starts with its first line. -/
theorem joinLines_cons (a : String) (l : List String) :
    ∃ t, joinLines (a :: l) = a ++ t := by
  cases l with
  | nil => exact ⟨"", by simp [joinLines]⟩
  | cons b rest =>
      exact ⟨"\n" ++ joinLines (b :: rest), by simp [joinLines, String.append_assoc]⟩

/-- C8: the summary string begins with `Running Workflow : <name>`; line 4 is
the `Inputs :` header; after it there is exactly one line per input entry, of
the form two spaces, the key padded on the right to a minimum width of 15
characters, `" : "`, and the value. -/
theorem buildDisplayInfo_spec (w r b : String) (m : List (String × String)) :
    (∃ t, buildDisplayInfo w r b m = ("Running Workflow : " ++ w) ++ t) ∧
    (displayLines w r b m)[4]? = some "Inputs :" ∧
    (displayLines w r b m).drop 5 =
      m.map (fun kv => "  " ++ padEnd kv.1 15 ++ " : " ++ kv.2) ∧
    ((displayLines w r b m).drop 5).length = m.length ∧
    ∀ k : String, (padEnd k 15).length = max k.length 15 ∧
      ∃ p, padEnd k 15 = k ++ p := by
  refine ⟨?_, ?_, ?_, ?_, ?_⟩
  · unfold buildDisplayInfo displayLines
    rw [List.cons_append]
    exact joinLines_cons _ _
  · unfold displayLines
    simp only [List.cons_append, List.nil_append, List.getElem?_cons_succ,
      List.getElem?_cons_zero]
  · unfold displayLines
    simp only [List.cons_append, List.nil_append, List.drop_succ_cons, List.drop_zero]
  · unfold displayLines
    simp only [List.cons_append, List.nil_append, List.drop_succ_cons, List.drop_zero,
      List.length_map]
  · intro k
    constructor
    · show (k ++ String.mk (List.replicate (15 - k.length) ' ')).length = _
      rw [String.length_append]
      show k.length + (List.replicate (15 - k.length) ' ').length = _
      rw [List.length_replicate]
      omega
    · exact ⟨String.mk (List.replicate (15 - k.length) ' '), rfl⟩

/-- `repo.bookmarks = repo.bookmarks ?? []; repo.bookmarks.push(bookmark)`:
the repository's bookmark list with the new bookmark appended, the list being
created when the `bookmarks` key was absent. -/
def pushBookmark (r : Repo) (bookmark : Bookmark) : Repo :=
  { r with bookmarks := some ((r.bookmarks.getD []) ++ [bookmark]) }

/-- The repository list after `saveBookmark` mutates the repo object returned
by `find`: only the first repository with the given name is updated. -/
def saveRepos (repos : List Repo) (repoName : String) (bookmark : Bookmark) :
    List Repo :=
  match repos with
  | [] => []
  | r :: rest =>
      if r.name == repoName then pushBookmark r bookmark :: rest
      else r :: saveRepos rest repoName bookmark

/-- Pure core of `saveBookmark`: re-parse the stored config, locate the repo
by name (first match), fail with the exact "not found" message when absent,
otherwise append the bookmark and serialize the updated config back. -/
def saveBookmark (config : RepoConfig) (repoName : String) (bookmark : Bookmark) :
    Except String RepoConfig :=
  match config.repos.find? (fun r => r.name == repoName) with
  | none => .error ("Repository " ++ repoName ++ " not found in config")
  | some _ => .ok ⟨saveRepos config.repos repoName bookmark⟩

/-- The config file content after a `saveBookmark` call: `writeFile` runs only
when the repository was found, so on error the stored config is unchanged. -/
def storeAfterSaveBookmark (config : RepoConfig) (repoName : String)
    (bookmark : Bookmark) : RepoConfig :=
  match saveBookmark config repoName bookmark with
  | .ok written => written
  | .error _ => config

/-- C4: when no repository has the given name, `saveBookmark` fails with the
error message naming that exact repository, and the stored config is
unchanged (no write is performed). -/
theorem saveBookmark_notFound (config : RepoConfig) (repoName : String)
    (bookmark : Bookmark)
    (h : config.repos.find? (fun r => r.name == repoName) = none) :
    saveBookmark config repoName bookmark =
      .error ("Repository " ++ repoName ++ " not found in config") ∧
    storeAfterSaveBookmark config repoName bookmark = config := by
  have herr : saveBookmark config repoName bookmark =
      .error ("Repository " ++ repoName ++ " not found in config") := by
    unfold saveBookmark
    rw [h]
  exact ⟨herr, by unfold storeAfterSaveBookmark; rw [herr]⟩

/-- Witness for C4 on a one-repo config and a missing name. -/
theorem saveBookmark_notFound_witness :
    (RepoConfig.mk [⟨"owner/repo1", ["main"], none⟩]).repos.find?
        (fun r => r.name == "owner/nonexistent") = none ∧
    saveBookmark (RepoConfig.mk [⟨"owner/repo1", ["main"], none⟩])
        "owner/nonexistent" ⟨"Test", "test.yml", "main", []⟩ =
      .error ("Repository " ++ "owner/nonexistent" ++ " not found in config") ∧
    storeAfterSaveBookmark (RepoConfig.mk [⟨"owner/repo1", ["main"], none⟩])
        "owner/nonexistent" ⟨"Test", "test.yml", "main", []⟩ =
      RepoConfig.mk [⟨"owner/repo1", ["main"], none⟩] := by
  refine ⟨by decide, ?_, ?_⟩
  · exact (saveBookmark_notFound _ _ _ (by decide)).1
  · exact (saveBookmark_notFound _ _ _ (by decide)).2

/-- If `find?` locates a repository, `saveRepos` pushes the bookmark onto that
repository and `find?` on the result returns the pushed repository. -/
theorem find?_saveRepos (repoName : String) (bookmark : Bookmark) :
    ∀ (repos : List Repo) (r : Repo),
      repos.find? (fun x => x.name == repoName) = some r →
      (saveRepos repos repoName bookmark).find? (fun x => x.name == repoName) =
        some (pushBookmark r bookmark) := by
  intro repos
  induction repos with
  | nil => intro r h; simp at h
  | cons r₀ rest ih =>
      intro r h
      by_cases h₀ : r₀.name == repoName
      · rw [@List.find?_cons_of_pos Repo (fun x => x.name == repoName) r₀ rest h₀] at h
        injection h with h
        subst h
        unfold saveRepos
        rw [if_pos h₀]
        have h₁ : (fun (x : Repo) => x.name == repoName) (pushBookmark r₀ bookmark) :=
          h₀
        rw [@List.find?_cons_of_pos Repo (fun x => x.name == repoName)
          (pushBookmark r₀ bookmark) rest h₁]
      · rw [@List.find?_cons_of_neg Repo (fun x => x.name == repoName) r₀ rest h₀] at h
        unfold saveRepos
        rw [if_neg h₀,
          @List.find?_cons_of_neg Repo (fun x => x.name == repoName) r₀
            (saveRepos rest repoName bookmark) h₀]
        exact ih r h

/-- C5: when the named repository exists, `saveBookmark` succeeds and the
written config's repository of that name has the new bookmark appended to its
list: a repo without a prior `bookmarks` key ends with exactly the new entry,
and a repo with prior bookmarks keeps every one of them, in order, with the
new entry appended. -/
theorem saveBookmark_found (config : RepoConfig) (repoName : String)
    (bookmark : Bookmark) (r : Repo)
    (h : config.repos.find? (fun x => x.name == repoName) = some r) :
    ∃ written : RepoConfig,
      saveBookmark config repoName bookmark = .ok written ∧
      written.repos.find? (fun x => x.name == repoName) =
        some { r with bookmarks := some ((r.bookmarks.getD []) ++ [bookmark]) } ∧
      (r.bookmarks = none →
        written.repos.find? (fun x => x.name == repoName) =
          some { r with bookmarks := some [bookmark] }) ∧
      (∀ prior : List Bookmark, r.bookmarks = some prior →
        written.repos.find? (fun x => x.name == repoName) =
          some { r with bookmarks := some (prior ++ [bookmark]) }) := by
  refine ⟨⟨saveRepos config.repos repoName bookmark⟩, ?_, ?_, ?_, ?_⟩
  · unfold saveBookmark
    rw [h]
  · exact find?_saveRepos repoName bookmark config.repos r h
  · intro hnone
    have := find?_saveRepos repoName bookmark config.repos r h
    rwa [pushBookmark, hnone] at this
  · intro prior hsome
    have := find?_saveRepos repoName bookmark config.repos r h
    rwa [pushBookmark, hsome] at this

/-- Witness for C5: saving into a repo with one prior bookmark keeps it and
appends the new one. -/
theorem saveBookmark_found_witness :
    (RepoConfig.mk
        [⟨"owner/a", ["dev"], none⟩,
         ⟨"owner/repo1", ["main"], some [⟨"Old", "old.yml", "main", [("k", "v")]⟩]⟩]).repos.find?
        (fun x => x.name == "owner/repo1") =
      some ⟨"owner/repo1", ["main"], some [⟨"Old", "old.yml", "main", [("k", "v")]⟩]⟩ ∧
    ∃ written : RepoConfig,
      saveBookmark (RepoConfig.mk
          [⟨"owner/a", ["dev"], none⟩,
           ⟨"owner/repo1", ["main"], some [⟨"Old", "old.yml", "main", [("k", "v")]⟩]⟩])
          "owner/repo1" ⟨"New", "new.yml", "dev", [("env", "prod")]⟩ = .ok written ∧
      written.repos.find? (fun x => x.name == "owner/repo1") =
        some ⟨"owner/repo1", ["main"],
          some ([⟨"Old", "old.yml", "main", [("k", "v")]⟩] ++
            [⟨"New", "new.yml", "dev", [("env", "prod")]⟩])⟩ := by
  refine ⟨by decide, ?_⟩
  obtain ⟨written, h1, h2, -, h4⟩ :=
    saveBookmark_found
      (RepoConfig.mk
        [⟨"owner/a", ["dev"], none⟩,
         ⟨"owner/repo1", ["main"], some [⟨"Old", "old.yml", "main", [("k", "v")]⟩]⟩])
      "owner/repo1" ⟨"New", "new.yml", "dev", [("env", "prod")]⟩
      ⟨"owner/repo1", ["main"], some [⟨"Old", "old.yml", "main", [("k", "v")]⟩]⟩
      (by decide)
  exact ⟨written, h1, h4 _ rfl⟩

/-- `find?` hitting `some` yields a witness index: the first index whose
element satisfies the predicate, with `saveRepos` acting as a pointwise
`List.set` at that index. -/
theorem saveRepos_eq_set (repoName : String) (bookmark : Bookmark) :
    ∀ (repos : List Repo) (r : Repo),
      repos.find? (fun x => x.name == repoName) = some r →
      ∃ i, ∃ hi : i < repos.length,
        repos.get ⟨i, hi⟩ = r ∧
        saveRepos repos repoName bookmark =
          repos.set i (pushBookmark r bookmark) := by
  intro repos
  induction repos with
  | nil => intro r h; simp at h
  | cons r₀ rest ih =>
      intro r h
      by_cases h₀ : r₀.name == repoName
      · rw [@List.find?_cons_of_pos Repo (fun x => x.name == repoName) r₀ rest h₀] at h
        injection h with h
        subst h
        refine ⟨0, by simp, rfl, ?_⟩
        unfold saveRepos
        rw [if_pos h₀]
        rfl
      · rw [@List.find?_cons_of_neg Repo (fun x => x.name == repoName) r₀ rest h₀] at h
        obtain ⟨i, hi, hget, hset⟩ := ih r h
        refine ⟨i + 1, by simpa using Nat.succ_lt_succ hi, hget, ?_⟩
        unfold saveRepos
        rw [if_neg h₀, hset]
        rfl

/-- C9 (frame property): on a successful save, the written repository list is
the original with exactly one position replaced; the repository at that
position keeps its `name` and `branches` and only gains the appended bookmark,
and every other position is byte-for-byte the original entry. -/
theorem saveBookmark_frame (config : RepoConfig) (repoName : String)
    (bookmark : Bookmark) (r : Repo)
    (h : config.repos.find? (fun x => x.name == repoName) = some r) :
    ∃ i, ∃ hi : i < config.repos.length,
      config.repos.get ⟨i, hi⟩ = r ∧
      saveBookmark config repoName bookmark =
        .ok ⟨config.repos.set i (pushBookmark r bookmark)⟩ ∧
      (pushBookmark r bookmark).name = r.name ∧
      (pushBookmark r bookmark).branches = r.branches ∧
      (pushBookmark r bookmark).bookmarks =
        some ((r.bookmarks.getD []) ++ [bookmark]) ∧
      (config.repos.set i (pushBookmark r bookmark)).length =
        config.repos.length ∧
      ∀ j, j ≠ i → ∀ hj : j < config.repos.length,
        (config.repos.set i (pushBookmark r bookmark)).get
            ⟨j, by simpa using hj⟩ =
          config.repos.get ⟨j, hj⟩ := by
  obtain ⟨i, hi, hget, hset⟩ := saveRepos_eq_set repoName bookmark config.repos r h
  refine ⟨i, hi, hget, ?_, rfl, rfl, rfl, by simp, ?_⟩
  · unfold saveBookmark
    rw [h, hset]
  · intro j hj hjlt
    simp only [List.get_eq_getElem]
    exact List.getElem_set_ne (Ne.symm hj) (by simpa using hjlt)

/-- Witness for C9 on a two-repo config: position 0 is untouched, position 1
gets the appended bookmark. -/
theorem saveBookmark_frame_witness :
    (RepoConfig.mk
        [⟨"owner/a", ["dev"], none⟩, ⟨"owner/b", ["main"], none⟩]).repos.find?
        (fun x => x.name == "owner/b") = some ⟨"owner/b", ["main"], none⟩ ∧
    ∃ i, ∃ hi : i <
        (RepoConfig.mk
          [⟨"owner/a", ["dev"], none⟩, ⟨"owner/b", ["main"], none⟩]).repos.length,
      (RepoConfig.mk
          [⟨"owner/a", ["dev"], none⟩, ⟨"owner/b", ["main"], none⟩]).repos.get
          ⟨i, hi⟩ = ⟨"owner/b", ["main"], none⟩ ∧
      saveBookmark
          (RepoConfig.mk [⟨"owner/a", ["dev"], none⟩, ⟨"owner/b", ["main"], none⟩])
          "owner/b" ⟨"N", "w.yml", "main", []⟩ =
        .ok ⟨(RepoConfig.mk
            [⟨"owner/a", ["dev"], none⟩, ⟨"owner/b", ["main"], none⟩]).repos.set i
          (pushBookmark ⟨"owner/b", ["main"], none⟩ ⟨"N", "w.yml", "main", []⟩)⟩ := by
  obtain ⟨i, hi, hget, hok, -⟩ :=
    saveBookmark_frame
      (RepoConfig.mk [⟨"owner/a", ["dev"], none⟩, ⟨"owner/b", ["main"], none⟩])
      "owner/b" ⟨"N", "w.yml", "main", []⟩ ⟨"owner/b", ["main"], none⟩ (by decide)
  exact ⟨by decide, i, hi, hget, hok⟩

/-- Witness for C3 on a concrete mixed list of workflow states. -/
theorem filterActiveWorkflows_witness :
    filterActiveWorkflows
        [⟨"CI", ".github/workflows/ci.yml", 1, "active"⟩,
         ⟨"Old", ".github/workflows/old.yml", 2, "disabled"⟩,
         ⟨"Deploy", ".github/workflows/deploy.yml", 3, "active"⟩] =
      ([⟨"CI", ".github/workflows/ci.yml", 1, "active"⟩,
        ⟨"Old", ".github/workflows/old.yml", 2, "disabled"⟩,
        ⟨"Deploy", ".github/workflows/deploy.yml", 3, "active"⟩] :
          List Workflow).filter (fun w => w.state == "active") ∧
    filterActiveWorkflows (filterActiveWorkflows
        [⟨"CI", ".github/workflows/ci.yml", 1, "active"⟩,
         ⟨"Old", ".github/workflows/old.yml", 2, "disabled"⟩,
         ⟨"Deploy", ".github/workflows/deploy.yml", 3, "active"⟩]) =
      filterActiveWorkflows
        [⟨"CI", ".github/workflows/ci.yml", 1, "active"⟩,
         ⟨"Old", ".github/workflows/old.yml", 2, "disabled"⟩,
         ⟨"Deploy", ".github/workflows/deploy.yml", 3, "active"⟩] :=
  ⟨(filterActiveWorkflows_spec _).1, (filterActiveWorkflows_spec _).2.2.2⟩

/-- Witness for C7: two permuted two-repo configs produce the same sorted
name listing. -/
theorem getRepoList_witness :
    (RepoConfig.mk [⟨"owner/a", ["dev"], none⟩, ⟨"owner/b", ["main"], none⟩]).repos.Perm
      (RepoConfig.mk [⟨"owner/b", ["main"], none⟩, ⟨"owner/a", ["dev"], none⟩]).repos ∧
    getRepoList (RepoConfig.mk [⟨"owner/a", ["dev"], none⟩, ⟨"owner/b", ["main"], none⟩]) =
      getRepoList (RepoConfig.mk [⟨"owner/b", ["main"], none⟩, ⟨"owner/a", ["dev"], none⟩]) :=
  ⟨by decide,
    (getRepoList_spec (RepoConfig.mk
      [⟨"owner/b", ["main"], none⟩, ⟨"owner/a", ["dev"], none⟩])).2.2 _ (by decide)⟩

/-- Witness for C2 on a concrete two-entry input map (one `choice`, one
`string` with no declared default). -/
theorem getWorkflowInputs_witness :
    List.Forall₂ (fun (p : String × WorkflowDispatchInput) (out : WorkflowInput) =>
        out.name = p.1 ∧
        out.type = p.2.type ∧
        (∀ v, p.2.default = some v → out.default = v.jsString) ∧
        (p.2.default = none → out.default = "") ∧
        (out.options.isSome ↔ p.2.type = "choice") ∧
        (p.2.type = "choice" → out.options = some p.2.options) ∧
        out.required = p.2.required)
      ((some [("environment", ⟨"choice", some (.str "dev"), ["dev", "staging", "prod"], true⟩),
              ("version", ⟨"string", none, [], false⟩)] :
          Option (List (String × WorkflowDispatchInput))).getD [])
      (getWorkflowInputs
        (some [("environment", ⟨"choice", some (.str "dev"), ["dev", "staging", "prod"], true⟩),
               ("version", ⟨"string", none, [], false⟩)])) :=
  (getWorkflowInputs_spec
    (some [("environment", ⟨"choice", some (.str "dev"), ["dev", "staging", "prod"], true⟩),
           ("version", ⟨"string", none, [], false⟩)])).2.2.2

/-- A deferred prompt constructor: the data the prompt widget is built from
(`text` for free-text prompts, `select` for choice prompts whose options are
`(value, label)` pairs). -/
inductive Prompt where
  | text (message : String) (placeholder : String) (initialValue : String)
  | select (message : String) (options : List (String × String)) (initialValue : String)
deriving DecidableEq

/-- JavaScript string conversion of a boolean (`"Required? " + input.required`). -/
def boolString (b : Bool) : String :=
  if b then "true" else "false"

/-- JavaScript record assignment `createdGroup[input.name] = …`: an existing
key is updated in place, a new key is appended. -/
def recordSet (rec : List (String × Prompt)) (k : String) (v : Prompt) :
    List (String × Prompt) :=
  if rec.any (fun p => p.1 == k) then rec.map (fun p => if p.1 == k then (k, v) else p)
  else rec ++ [(k, v)]

/-- The `forEach` loop of `buildInputPrompts`: a first-match dispatch on the
input's `type` string, assigning a prompt into the record for the recognized
types and logging `Invalid Input Type !` otherwise. -/
def buildInputPromptsGo (createdGroup : List (String × Prompt)) (diags : List String) :
    List WorkflowInput → List (String × Prompt) × List String
  | [] => (createdGroup, diags)
  | input :: rest =>
      if input.type == "string" || input.type == "number" || input.type == "environment" then
        buildInputPromptsGo
          (recordSet createdGroup input.name
            (.text ("Input " ++ input.name) ("Required? " ++ boolString input.required)
              input.default))
          diags rest
      else if input.type == "boolean" then
        buildInputPromptsGo
          (recordSet createdGroup input.name
            (.select ("Input " ++ input.name) [("true", "True"), ("false", "False")]
              input.default))
          diags rest
      else if input.type == "choice" then
        buildInputPromptsGo
          (recordSet createdGroup input.name
            (.select ("Input " ++ input.name)
              ((input.options.getD []).map (fun opt => (opt, opt))) input.default))
          diags rest
      else
        buildInputPromptsGo createdGroup (diags ++ ["Invalid Input Type !"]) rest

/-- `buildInputPrompts`: starts from the empty record (and no diagnostics). -/
def buildInputPrompts (inputs : List WorkflowInput) :
    List (String × Prompt) × List String :=
  buildInputPromptsGo [] [] inputs

/-- The prompt constructed for a single input, `none` for unrecognized types
(specification-side restatement of the per-input dispatch). -/
def promptFor (input : WorkflowInput) : Option Prompt :=
  if input.type == "string" || input.type == "number" || input.type == "environment" then
    some (.text ("Input " ++ input.name) ("Required? " ++ boolString input.required)
      input.default)
  else if input.type == "boolean" then
    some (.select ("Input " ++ input.name) [("true", "True"), ("false", "False")]
      input.default)
  else if input.type == "choice" then
    some (.select ("Input " ++ input.name)
      ((input.options.getD []).map (fun opt => (opt, opt))) input.default)
  else
    none

/-- Setting a key that is not present appends it. -/
theorem recordSet_not_found (rec : List (String × Prompt)) (k : String) (v : Prompt)
    (h : rec.any (fun p => p.1 == k) = false) :
    recordSet rec k v = rec ++ [(k, v)] := by
  unfold recordSet
  rw [h]
  simp

/-- Unrolled characterization of the `forEach` loop when the input names are
pairwise distinct and none of them is already present in the record. -/
theorem buildInputPromptsGo_spec :
    ∀ (inputs : List WorkflowInput) (rec : List (String × Prompt)) (diags : List String),
      (inputs.map (fun i => i.name)).Nodup →
      (∀ i ∈ inputs, rec.any (fun p => p.1 == i.name) = false) →
      buildInputPromptsGo rec diags inputs =
        (rec ++ inputs.filterMap (fun i => (promptFor i).map (fun p => (i.name, p))),
         diags ++ (inputs.filter (fun i => (promptFor i).isNone)).map
           (fun _ => "Invalid Input Type !")) := by
  intro inputs
  induction inputs with
  | nil => intro rec diags _ _; simp [buildInputPromptsGo]
  | cons input rest ih =>
      intro rec diags hnodup hfresh
      have hnodup' : (rest.map (fun i => i.name)).Nodup := by
        simpa using hnodup.of_cons
      have hname : input.name ∉ rest.map (fun i => i.name) := by
        have := hnodup
        rw [List.map_cons, List.nodup_cons] at this
        exact this.1
      have hfresh' : ∀ p : Prompt, ∀ i ∈ rest,
          (rec ++ [(input.name, p)]).any (fun s => s.1 == i.name) = false := by
        intro p i hi
        rw [List.any_append]
        have h1 : rec.any (fun s => s.1 == i.name) = false :=
          hfresh i (List.mem_cons_of_mem _ hi)
        have h2 : (input.name == i.name) = false := by
          rw [beq_eq_false_iff_ne]
          intro hcontra
          exact hname (hcontra ▸ List.mem_map_of_mem (fun i => i.name) hi)
        simp [h1, h2]
      have hrec : rec.any (fun p => p.1 == input.name) = false :=
        hfresh input (List.mem_cons_self _ _)
      by_cases h1 : (input.type == "string" || input.type == "number" ||
          input.type == "environment") = true
      · have hp : promptFor input = some (.text ("Input " ++ input.name)
            ("Required? " ++ boolString input.required) input.default) := by
          unfold promptFor
          rw [if_pos h1]
        unfold buildInputPromptsGo
        rw [if_pos h1, recordSet_not_found _ _ _ hrec,
          ih _ diags hnodup' (hfresh' _), List.filterMap_cons, List.filter_cons, hp]
        simp [List.append_assoc]
      · by_cases h2 : (input.type == "boolean") = true
        · have hp : promptFor input = some (.select ("Input " ++ input.name)
              [("true", "True"), ("false", "False")] input.default) := by
            unfold promptFor
            rw [if_neg h1, if_pos h2]
          unfold buildInputPromptsGo
          rw [if_neg h1, if_pos h2, recordSet_not_found _ _ _ hrec,
            ih _ diags hnodup' (hfresh' _), List.filterMap_cons, List.filter_cons, hp]
          simp [List.append_assoc]
        · by_cases h3 : (input.type == "choice") = true
          · have hp : promptFor input = some (.select ("Input " ++ input.name)
                ((input.options.getD []).map (fun opt => (opt, opt))) input.default) := by
              unfold promptFor
              rw [if_neg h1, if_neg h2, if_pos h3]
            unfold buildInputPromptsGo
            rw [if_neg h1, if_neg h2, if_pos h3,
              recordSet_not_found _ _ _ hrec,
              ih _ diags hnodup' (hfresh' _), List.filterMap_cons, List.filter_cons, hp]
            simp [List.append_assoc]
          · have hp : promptFor input = none := by
              unfold promptFor
              rw [if_neg h1, if_neg h2, if_neg h3]
            unfold buildInputPromptsGo
            rw [if_neg h1, if_neg h2, if_neg h3,
              ih _ _ hnodup' (fun i hi => hfresh i (List.mem_cons_of_mem _ hi)),
              List.filterMap_cons, List.filter_cons, hp]
            simp [List.append_assoc]

/-- C6: with pairwise-distinct input names, the record contains exactly one
deferred prompt per input of a recognized type, keyed by the input's name and
built per the type dispatch (text prompts for `string`/`number`/`environment`;
a binary True/False select for `boolean` pre-selected to the default; a select
whose options are exactly the declared options, value = label, for `choice`);
an input of any other type gets a diagnostic, no prompt, and no entry in the
record. -/
theorem buildInputPrompts_spec (inputs : List WorkflowInput)
    (hnodup : (inputs.map (fun i => i.name)).Nodup) :
    (buildInputPrompts inputs).1 =
      inputs.filterMap (fun i => (promptFor i).map (fun p => (i.name, p))) ∧
    (buildInputPrompts inputs).2 =
      (inputs.filter (fun i => (promptFor i).isNone)).map
        (fun _ => "Invalid Input Type !") ∧
    (∀ i ∈ inputs, (i.type = "string" ∨ i.type = "number" ∨ i.type = "environment") →
      promptFor i = some (.text ("Input " ++ i.name)
        ("Required? " ++ boolString i.required) i.default)) ∧
    (∀ i ∈ inputs, i.type = "boolean" →
      promptFor i = some (.select ("Input " ++ i.name)
        [("true", "True"), ("false", "False")] i.default)) ∧
    (∀ i ∈ inputs, i.type = "choice" →
      promptFor i = some (.select ("Input " ++ i.name)
        ((i.options.getD []).map (fun opt => (opt, opt))) i.default)) ∧
    (∀ i ∈ inputs,
      i.type ∉ (["string", "number", "environment", "boolean", "choice"] : List String) →
      promptFor i = none ∧ ∀ e ∈ (buildInputPrompts inputs).1, e.1 ≠ i.name) := by
  have hmain := buildInputPromptsGo_spec inputs [] [] hnodup (by simp)
  have h1 : (buildInputPrompts inputs).1 =
      inputs.filterMap (fun i => (promptFor i).map (fun p => (i.name, p))) := by
    unfold buildInputPrompts
    rw [hmain]
    simp
  refine ⟨h1, ?_, ?_, ?_, ?_, ?_⟩
  · unfold buildInputPrompts
    rw [hmain]
    simp
  · intro i _ ht
    unfold promptFor
    rw [if_pos (by rcases ht with h | h | h <;> simp [h])]
  · intro i _ ht
    unfold promptFor
    rw [if_neg (by simp [ht]), if_pos (by simp [ht])]
  · intro i _ ht
    unfold promptFor
    rw [if_neg (by simp [ht]), if_neg (by simp [ht]), if_pos (by simp [ht])]
  · intro i hi ht
    simp only [List.mem_cons, List.mem_singleton, List.not_mem_nil] at ht
    push_neg at ht
    obtain ⟨hs, hn, he, hb, hc⟩ := ht
    have hp : promptFor i = none := by
      unfold promptFor
      rw [if_neg (by simp [hs, hn, he]), if_neg (by simp [hb]), if_neg (by simp [hc])]
    refine ⟨hp, ?_⟩
    intro e he' hcontra
    rw [h1] at he'
    obtain ⟨j, hj, hje⟩ := List.mem_filterMap.mp he'
    obtain ⟨p, hp', hje'⟩ := Option.map_eq_some'.mp hje
    have hnames : j.name = i.name := by
      rw [← hje'] at hcontra
      exact hcontra
    have : j = i := List.inj_on_of_nodup_map hnodup hj hi hnames
    rw [this, hp] at hp'
    exact Option.noConfusion hp'

/-- Witness for C6 on four inputs covering text, boolean, choice and an
unrecognized type. -/
theorem buildInputPrompts_witness :
    (([⟨"version", "string", "1.0.0", none, true⟩,
       ⟨"debug", "boolean", "false", none, false⟩,
       ⟨"env", "choice", "dev", some ["dev", "prod"], true⟩,
       ⟨"weird", "surprise", "", none, false⟩] : List WorkflowInput).map
        (fun i => i.name)).Nodup ∧
    (buildInputPrompts
        [⟨"version", "string", "1.0.0", none, true⟩,
         ⟨"debug", "boolean", "false", none, false⟩,
         ⟨"env", "choice", "dev", some ["dev", "prod"], true⟩,
         ⟨"weird", "surprise", "", none, false⟩]).1 =
      ([⟨"version", "string", "1.0.0", none, true⟩,
        ⟨"debug", "boolean", "false", none, false⟩,
        ⟨"env", "choice", "dev", some ["dev", "prod"], true⟩,
        ⟨"weird", "surprise", "", none, false⟩] : List WorkflowInput).filterMap
        (fun i => (promptFor i).map (fun p => (i.name, p))) ∧
    (buildInputPrompts
        [⟨"version", "string", "1.0.0", none, true⟩,
         ⟨"debug", "boolean", "false", none, false⟩,
         ⟨"env", "choice", "dev", some ["dev", "prod"], true⟩,
         ⟨"weird", "surprise", "", none, false⟩]).2 =
      (([⟨"version", "string", "1.0.0", none, true⟩,
         ⟨"debug", "boolean", "false", none, false⟩,
         ⟨"env", "choice", "dev", some ["dev", "prod"], true⟩,
         ⟨"weird", "surprise", "", none, false⟩] : List WorkflowInput).filter
        (fun i => (promptFor i).isNone)).map (fun _ => "Invalid Input Type !") := by
  refine ⟨by decide, ?_, ?_⟩
  · exact (buildInputPrompts_spec _ (by decide)).1
  · exact (buildInputPrompts_spec _ (by decide)).2.1

/-- Extracts, from the tail of an argument vector, the key of every
`-f key=value` pair, in order. -/
def collectFKeys : List String → List String
  | flag :: kv :: rest =>
      if flag == "-f" then
        String.mk (kv.data.takeWhile (fun c => c != '=')) :: collectFKeys rest
      else []
  | _ => []

/-- Extracts the rendered key from a per-input summary line of the form
`"  " ++ padEnd key 15 ++ " : " ++ value` (for keys without spaces). -/
def displayKeyOf (line : String) : String :=
  String.mk ((line.data.drop 2).takeWhile (fun c => c != ' '))

/-- `takeWhile` stops exactly at the first failing element. -/
theorem takeWhile_append_stop {p : Char → Bool} :
    ∀ (l : List Char) (c : Char) (t : List Char),
      l.all p = true → p c = false → ((l ++ c :: t).takeWhile p) = l := by
  intro l
  induction l with
  | nil =>
      intro c t _ hc
      simp [List.takeWhile_cons, hc]
  | cons a l' ih =>
      intro c t hall hc
      rw [List.all_cons, Bool.and_eq_true] at hall
      rw [List.cons_append, List.takeWhile_cons]
      simp [hall.1, ih c t hall.2 hc]

/-- The character data of a padded display line after the two-space indent:
the key's characters followed by a space (either padding or the separator). -/
theorem padded_line_data (k v : String) :
    ∃ t : List Char,
      ("  " ++ padEnd k 15 ++ " : " ++ v).data.drop 2 = k.data ++ ' ' :: t := by
  have hdata : ("  " ++ padEnd k 15 ++ " : " ++ v).data =
      ' ' :: ' ' :: (k.data ++ List.replicate (15 - k.length) ' ' ++
        (' ' :: ':' :: ' ' :: v.data)) := by
    simp only [String.data_append, padEnd]
    show (' ' :: ' ' :: []) ++ (k.data ++ _) ++ (' ' :: ':' :: ' ' :: []) ++ v.data = _
    simp [List.append_assoc]
  rw [hdata]
  simp only [List.drop_succ_cons, List.drop_zero]
  cases hrep : 15 - k.length with
  | zero =>
      exact ⟨':' :: ' ' :: v.data, by simp [List.append_assoc]⟩
  | succ n =>
      refine ⟨List.replicate n ' ' ++ (' ' :: ':' :: ' ' :: v.data), ?_⟩
      simp [List.replicate_succ, List.append_assoc]

/-- On the flattened `-f key=value` fragments, `collectFKeys` recovers the
keys in order, provided no key contains `'='`. -/
theorem collectFKeys_flatMap :
    ∀ m : List (String × String),
      (∀ kv ∈ m, kv.1.data.all (fun c => c != '=') = true ∧
        kv.1.data.all (fun c => c != ' ') = true) →
      collectFKeys (m.flatMap (fun kv => ["-f", kv.1 ++ "=" ++ kv.2])) =
        m.map Prod.fst := by
  intro m
  induction m with
  | nil => intro _; rfl
  | cons kv rest ih =>
      intro hkeys
      have hk := hkeys kv (List.mem_cons_self _ _)
      rw [List.flatMap_cons]
      show collectFKeys ("-f" :: (kv.1 ++ "=" ++ kv.2) :: _) = _
      unfold collectFKeys
      rw [if_pos (by rfl)]
      have hkvdata : (kv.1 ++ "=" ++ kv.2).data = kv.1.data ++ '=' :: kv.2.data := by
        simp only [String.data_append]
        show kv.1.data ++ ('=' :: []) ++ kv.2.data = _
        simp
      rw [hkvdata, takeWhile_append_stop kv.1.data '=' kv.2.data hk.1 (by rfl),
        List.map_cons]
      congr 1
      exact ih (fun x hx => hkeys x (List.mem_cons_of_mem _ hx))

/-- C10: the key sequence rendered in the confirmation summary's per-input
lines coincides exactly (same keys, same order) with the key sequence of the
`-f key=value` pairs dispatched by `buildWorkflowRunArgs` on the same input
mapping: both are the mapping's keys in iteration order (stated for keys free
of `'='` and `' '`, which keep the two textual encodings parseable). -/
theorem displayKeys_eq_dispatchedKeys (w r b : String) (m : List (String × String))
    (hkeys : ∀ kv ∈ m, kv.1.data.all (fun c => c != '=') = true ∧
      kv.1.data.all (fun c => c != ' ') = true) :
    collectFKeys ((buildWorkflowRunArgs w r b m).drop 7) = m.map Prod.fst ∧
    ((displayLines w r b m).drop 5).map displayKeyOf = m.map Prod.fst ∧
    collectFKeys ((buildWorkflowRunArgs w r b m).drop 7) =
      ((displayLines w r b m).drop 5).map displayKeyOf := by
  have hdrop7 : (buildWorkflowRunArgs w r b m).drop 7 =
      m.flatMap (fun kv => ["-f", kv.1 ++ "=" ++ kv.2]) := by
    unfold buildWorkflowRunArgs
    rw [foldl_push_eq_append]
    simp only [List.cons_append, List.nil_append, List.drop_succ_cons, List.drop_zero]
  have hargs : collectFKeys ((buildWorkflowRunArgs w r b m).drop 7) = m.map Prod.fst := by
    rw [hdrop7]
    exact collectFKeys_flatMap m hkeys
  have hdisp : ((displayLines w r b m).drop 5).map displayKeyOf = m.map Prod.fst := by
    have hdrop5 : (displayLines w r b m).drop 5 =
        m.map (fun kv => "  " ++ padEnd kv.1 15 ++ " : " ++ kv.2) := by
      unfold displayLines
      simp only [List.cons_append, List.nil_append, List.drop_succ_cons, List.drop_zero]
    rw [hdrop5, List.map_map]
    refine List.map_congr_left ?_
    intro kv hkv
    obtain ⟨t, ht⟩ := padded_line_data kv.1 kv.2
    show displayKeyOf ("  " ++ padEnd kv.1 15 ++ " : " ++ kv.2) = kv.1
    unfold displayKeyOf
    rw [ht, takeWhile_append_stop kv.1.data ' ' t (hkeys kv hkv).2 (by rfl)]
  exact ⟨hargs, hdisp, by rw [hargs, hdisp]⟩

/-- Witness for C10 on the two-input `Deploy` example. -/
theorem displayKeys_eq_dispatchedKeys_witness :
    (∀ kv ∈ ([("environment", "staging"), ("version", "2.0.0")] :
        List (String × String)),
      kv.1.data.all (fun c => c != '=') = true ∧
      kv.1.data.all (fun c => c != ' ') = true) ∧
    collectFKeys ((buildWorkflowRunArgs "Deploy" "owner/repo" "main"
        [("environment", "staging"), ("version", "2.0.0")]).drop 7) =
      ([("environment", "staging"), ("version", "2.0.0")] :
        List (String × String)).map Prod.fst ∧
    ((displayLines "Deploy" "owner/repo" "main"
        [("environment", "staging"), ("version", "2.0.0")]).drop 5).map displayKeyOf =
      ([("environment", "staging"), ("version", "2.0.0")] :
        List (String × String)).map Prod.fst := by
  refine ⟨by decide, ?_, ?_⟩
  · exact (displayKeys_eq_dispatchedKeys "Deploy" "owner/repo" "main" _ (by decide)).1
  · exact (displayKeys_eq_dispatchedKeys "Deploy" "owner/repo" "main" _ (by decide)).2.1

end Runr
